import Mathlib

/-!
Shallow embedding of `xhzeem/ip2whois` (src/main.go) together with proofs
of the specification's claims about it.

The program has three parts:
* `removeRedactedAndEmptyFields` (main.go:48-78): a recursive filter over a
  parsed JSON tree;
* `fetchIP2Whois` (main.go:15-45): one request/response cycle, classified
  into success or one of four failure kinds;
* the driver loop in `main` (main.go:99-135): split the keys flag on commas,
  try each key in order (trimmed at the call site), stop at the first
  success, print the (optionally cleaned) record, exit 1 if all keys fail.

Go JSON values (`interface{}` after `json.Unmarshal`) are embedded as the
mutual inductives `JsonValue` / `JsonList` / `JsonFields`; a Go
`map[string]interface{}` becomes the association list `JsonFields` (Go map
keys are unique — captured where needed by a `Nodup` hypothesis on the key
list — and Go map iteration order is unspecified, which the list embedding
refines by fixing one order, so every list equation proved here implies the
corresponding equation on the underlying key-value mapping).  Go `float64`
numbers never have their value inspected by this program, so they are
carried as a rational payload.
-/

mutual
/-- Embedding of a parsed JSON value (`interface{}` after `json.Unmarshal`
in Go): string, number, boolean, null, array, or object. -/
inductive JsonValue : Type where
  | str : String → JsonValue
  | num : Rat → JsonValue
  | boolv : Bool → JsonValue
  | null : JsonValue
  | arr : JsonList → JsonValue
  | obj : JsonFields → JsonValue
  deriving DecidableEq

/-- Embedding of a Go `[]interface{}`: a JSON array. -/
inductive JsonList : Type where
  | nil : JsonList
  | cons : JsonValue → JsonList → JsonList
  deriving DecidableEq

/-- Embedding of a Go `map[string]interface{}`: a JSON object as an
association list of fields. -/
inductive JsonFields : Type where
  | nil : JsonFields
  | cons : String → JsonValue → JsonFields → JsonFields
  deriving DecidableEq
end

/-- Embedding of Go `len` on a `[]interface{}` value. -/
def JsonList.length : JsonList → Nat
  | .nil => 0
  | .cons _ rest => 1 + rest.length

/-- Embedding of Go `len` on a `map[string]interface{}` value. -/
def JsonFields.length : JsonFields → Nat
  | .nil => 0
  | .cons _ _ rest => 1 + rest.length

/-- View of a JSON object as an ordinary Lean list of key-value pairs, used
to state properties with the list library. -/
def JsonFields.toList : JsonFields → List (String × JsonValue)
  | .nil => []
  | .cons k v rest => (k, v) :: rest.toList

/-- The keys of a JSON object, in order. -/
def JsonFields.keys (m : JsonFields) : List String :=
  m.toList.map Prod.fst

/-- `listStartsWith pat l` is true iff `pat` is an initial segment of `l`. -/
def listStartsWith : List Char → List Char → Bool
  | [], _ => true
  | _ :: _, [] => false
  | a :: as, b :: bs => a == b && listStartsWith as bs

/-- `listHasSub pat l` is true iff `pat` occurs as a contiguous sublist of
`l`. -/
def listHasSub (pat : List Char) : List Char → Bool
  | [] => listStartsWith pat []
  | c :: cs => listStartsWith pat (c :: cs) || listHasSub pat cs

/-- Embedding of Go `strings.Contains s pat`: substring containment,
case-sensitive. -/
def strContains (s pat : String) : Bool :=
  listHasSub pat.data s.data

/-- Embedding of `removeRedactedAndEmptyFields` (main.go:48-78).  Walks the
fields of a mapping and keeps, per field:
* a string iff it is non-empty and does not contain `"REDACTED"`
  (main.go:53-57);
* a nested mapping, recursively cleaned, iff the cleaned result is
  non-empty (main.go:58-63);
* an array iff it is non-empty, elements untouched (main.go:64-68);
* `null` never, any other value (number, boolean) always (main.go:69-73). -/
def removeRedactedAndEmptyFields : JsonFields → JsonFields
  | .nil => .nil
  | .cons key (JsonValue.str v) rest =>
      if v != "" && !(strContains v "REDACTED") then
        .cons key (JsonValue.str v) (removeRedactedAndEmptyFields rest)
      else
        removeRedactedAndEmptyFields rest
  | .cons key (JsonValue.obj v) rest =>
      let cleanedNested := removeRedactedAndEmptyFields v
      if cleanedNested.length > 0 then
        .cons key (JsonValue.obj cleanedNested) (removeRedactedAndEmptyFields rest)
      else
        removeRedactedAndEmptyFields rest
  | .cons key (JsonValue.arr v) rest =>
      if v.length > 0 then
        .cons key (JsonValue.arr v) (removeRedactedAndEmptyFields rest)
      else
        removeRedactedAndEmptyFields rest
  | .cons _ JsonValue.null rest => removeRedactedAndEmptyFields rest
  | .cons key (JsonValue.num n) rest =>
      .cons key (JsonValue.num n) (removeRedactedAndEmptyFields rest)
  | .cons key (JsonValue.boolv b) rest =>
      .cons key (JsonValue.boolv b) (removeRedactedAndEmptyFields rest)

/-- The per-field decision of `removeRedactedAndEmptyFields`: `some v'` when
a field with value `v` survives with value `v'`, `none` when it is
dropped. -/
def cleanValue : JsonValue → Option JsonValue
  | JsonValue.str v =>
      if v != "" && !(strContains v "REDACTED") then some (JsonValue.str v)
      else none
  | JsonValue.obj v =>
      let cleanedNested := removeRedactedAndEmptyFields v
      if cleanedNested.length > 0 then some (JsonValue.obj cleanedNested)
      else none
  | JsonValue.arr v =>
      if v.length > 0 then some (JsonValue.arr v) else none
  | JsonValue.null => none
  | JsonValue.num n => some (JsonValue.num n)
  | JsonValue.boolv b => some (JsonValue.boolv b)

theorem clean_toList : ∀ m : JsonFields,
    (removeRedactedAndEmptyFields m).toList
      = m.toList.filterMap (fun kv => (cleanValue kv.2).map (fun v => (kv.1, v)))
  | .nil => rfl
  | .cons k (JsonValue.str s) rest => by
      by_cases h : ¬s = "" ∧ strContains s "REDACTED" = false <;>
        simp [removeRedactedAndEmptyFields, cleanValue, JsonFields.toList, h,
          clean_toList rest, List.filterMap_cons]
  | .cons k (JsonValue.obj v) rest => by
      by_cases h : (removeRedactedAndEmptyFields v).length > 0 <;>
        simp [removeRedactedAndEmptyFields, cleanValue, JsonFields.toList, h,
          clean_toList rest, List.filterMap_cons]
  | .cons k (JsonValue.arr xs) rest => by
      by_cases h : xs.length > 0 <;>
        simp [removeRedactedAndEmptyFields, cleanValue, JsonFields.toList, h,
          clean_toList rest, List.filterMap_cons]
  | .cons k JsonValue.null rest => by
      simp [removeRedactedAndEmptyFields, cleanValue, JsonFields.toList,
        clean_toList rest, List.filterMap_cons]
  | .cons k (JsonValue.num n) rest => by
      simp [removeRedactedAndEmptyFields, cleanValue, JsonFields.toList,
        clean_toList rest, List.filterMap_cons]
  | .cons k (JsonValue.boolv b) rest => by
      simp [removeRedactedAndEmptyFields, cleanValue, JsonFields.toList,
        clean_toList rest, List.filterMap_cons]

theorem mem_clean_iff (m : JsonFields) (k : String) (v : JsonValue) :
    (k, v) ∈ (removeRedactedAndEmptyFields m).toList ↔
      ∃ v0, (k, v0) ∈ m.toList ∧ cleanValue v0 = some v := by
  rw [clean_toList, List.mem_filterMap]
  constructor
  · rintro ⟨⟨k0, v0⟩, hmem, heq⟩
    rw [Option.map_eq_some'] at heq
    obtain ⟨v', hv', hpair⟩ := heq
    simp only [Prod.mk.injEq] at hpair
    obtain ⟨hk, hv⟩ := hpair
    subst hk
    subst hv
    exact ⟨v0, hmem, hv'⟩
  · rintro ⟨v0, hmem, hv⟩
    exact ⟨(k, v0), hmem, by rw [hv]; rfl⟩

theorem keys_nodup_val_eq : ∀ {l : List (String × JsonValue)},
    (l.map Prod.fst).Nodup → ∀ {k : String} {a b : JsonValue},
    (k, a) ∈ l → (k, b) ∈ l → a = b := by
  intro l
  induction l with
  | nil => intro _ k a b ha; cases ha
  | cons kv rest ih =>
      intro hnd k a b ha hb
      obtain ⟨k0, v0⟩ := kv
      simp only [List.map_cons, List.nodup_cons] at hnd
      rcases List.mem_cons.mp ha with ha0 | ha1 <;>
        rcases List.mem_cons.mp hb with hb0 | hb1
      · rw [Prod.mk.injEq] at ha0 hb0
        exact ha0.2.trans hb0.2.symm
      · rw [Prod.mk.injEq] at ha0
        exact absurd (ha0.1 ▸ List.mem_map_of_mem Prod.fst hb1) hnd.1
      · rw [Prod.mk.injEq] at hb0
        exact absurd (hb0.1 ▸ List.mem_map_of_mem Prod.fst ha1) hnd.1
      · exact ih hnd.2 ha1 hb1

/-- Go's `unicode.IsSpace`, deciding the characters `strings.TrimSpace`
removes: the Unicode White_Space code points U+0009-U+000D, U+0020, U+0085
(NEL), U+00A0 (NBSP), U+1680, U+2000-U+200A, U+2028, U+2029, U+202F,
U+205F and U+3000. -/
def isSpaceChar (c : Char) : Bool :=
  c == ' ' || c == '\t' || c == '\n' || c == '\x0b' || c == '\x0c' ||
    c == '\r' || c == Char.ofNat 0x85 || c == Char.ofNat 0xa0 ||
    c == Char.ofNat 0x1680 ||
    (decide (0x2000 ≤ c.toNat) && decide (c.toNat ≤ 0x200a)) ||
    c == Char.ofNat 0x2028 || c == Char.ofNat 0x2029 ||
    c == Char.ofNat 0x202f || c == Char.ofNat 0x205f || c == Char.ofNat 0x3000

/-- Embedding of Go `strings.TrimSpace` (used at main.go:105): drop leading
and trailing whitespace. -/
def trimSpace (s : String) : String :=
  String.mk (((s.data.dropWhile isSpaceChar).reverse.dropWhile isSpaceChar).reverse)

/-- Helper for `splitComma`: scan the characters, `acc` holding the current
token reversed. -/
def splitCommaAux : List Char → List Char → List String
  | [], acc => [String.mk acc.reverse]
  | c :: cs, acc =>
      if c = ',' then String.mk acc.reverse :: splitCommaAux cs []
      else splitCommaAux cs (c :: acc)

/-- Embedding of Go `strings.Split s ","` (main.go:100): split `s` around
every comma, keeping empty tokens. -/
def splitComma (s : String) : List String :=
  splitCommaAux s.data []

/-- Embedding of the key loop of `main` (main.go:102-130) at the level the
spec's driver claims live: `lookup` assigns to each (trimmed) key the
outcome of `fetchIP2Whois` with that key — `some r` when the call returns a
record that parses to `r`, `none` on any error.  Returns the list of keys
the loop actually invoked `lookup` on (in order, trimmed, as at
main.go:105) together with the first successful record, if any. -/
def tryKeys (lookup : String → Option JsonFields) : List String → List String × Option JsonFields
  | [] => ([], none)
  | k :: rest =>
      match lookup (trimSpace k) with
      | some r => ([trimSpace k], some r)
      | none =>
          let result := tryKeys lookup rest
          (trimSpace k :: result.1, result.2)

/-- The observable outcome of one program run past flag validation:
which keys were tried, the record printed to standard output (if any), the
final failure message (if any), and the exit code. -/
structure RunResult where
  triedKeys : List String
  printed : Option JsonFields
  message : Option String
  exitCode : Nat
  deriving DecidableEq

/-- Embedding of `main` from the key split onward (main.go:99-135): try
each key in order; on the first success print the record, cleaned when the
`-clean` flag is set, and exit 0; if every key fails print
`All API keys failed.` and exit 1.  (`fetchIP2Whois` only succeeds on a
body it already parsed, so the re-parse of the returned body at
main.go:109 is modelled as the lookup outcome itself.) -/
def runMain (lookup : String → Option JsonFields) (hideRedacted : Bool)
    (keys : List String) : RunResult :=
  match tryKeys lookup keys with
  | (tried, some r) =>
      { triedKeys := tried
        printed := some (if hideRedacted then removeRedactedAndEmptyFields r else r)
        message := none
        exitCode := 0 }
  | (tried, none) =>
      { triedKeys := tried
        printed := none
        message := some "All API keys failed."
        exitCode := 1 }

/-- The transport-level outcome of the single `http.Get` in
`fetchIP2Whois`: either the request could not be completed, or a response
with a status code and a body arrived. -/
inductive HttpOutcome : Type where
  | transportFailure : HttpOutcome
  | response : Nat → String → HttpOutcome
  deriving DecidableEq

/-- The failure kinds of one `fetchIP2Whois` call (main.go:15-45): the
four `return "", err` / `return "", errors.New ...` sites. -/
inductive LookupError : Type where
  | transportErr : LookupError
  | statusErr : Nat → LookupError
  | parseErr : LookupError
  | apiErr : LookupError
  deriving DecidableEq

/-- Whether `result["error"]` is present (the `ok` of the map index at
main.go:40). -/
def hasErrorKey : JsonFields → Bool
  | .nil => false
  | .cons k _ rest => k == "error" || hasErrorKey rest

/-- Embedding of `fetchIP2Whois` (main.go:15-45).  `parse` stands for
`json.Unmarshal` into `map[string]interface{}` (`none` on malformed
bodies); `outcome` is what the network produced for this key and domain.
The Go function returns the raw body string on success and `main` re-parses
it; since success requires the body to have parsed already, the model
returns that parse directly. -/
def fetchIP2Whois (parse : String → Option JsonFields) (outcome : HttpOutcome) :
    Except LookupError JsonFields :=
  match outcome with
  | HttpOutcome.transportFailure => Except.error LookupError.transportErr
  | HttpOutcome.response status body =>
      if status ≠ 200 then Except.error (LookupError.statusErr status)
      else
        match parse body with
        | none => Except.error LookupError.parseErr
        | some result =>
            if hasErrorKey result then Except.error LookupError.apiErr
            else Except.ok result

theorem cleanValue_some_shape : ∀ {v0 v : JsonValue}, cleanValue v0 = some v →
    v = v0 ∨ ∃ w, v0 = JsonValue.obj w ∧ v = JsonValue.obj (removeRedactedAndEmptyFields w) := by
  intro v0 v hv
  cases v0 with
  | str s =>
      simp only [cleanValue] at hv
      by_cases hc : (s != "" && !(strContains s "REDACTED")) = true
      · rw [if_pos hc] at hv
        injection hv with hv
        exact Or.inl hv.symm
      · rw [if_neg hc] at hv
        exact Option.noConfusion hv
  | obj w =>
      simp only [cleanValue] at hv
      by_cases hc : (removeRedactedAndEmptyFields w).length > 0
      · rw [if_pos hc] at hv
        injection hv with hv
        exact Or.inr ⟨w, rfl, hv.symm⟩
      · rw [if_neg hc] at hv
        exact Option.noConfusion hv
  | arr xs =>
      simp only [cleanValue] at hv
      by_cases hc : xs.length > 0
      · rw [if_pos hc] at hv
        injection hv with hv
        exact Or.inl hv.symm
      · rw [if_neg hc] at hv
        exact Option.noConfusion hv
  | null =>
      simp only [cleanValue] at hv
      exact Option.noConfusion hv
  | num n =>
      simp only [cleanValue] at hv
      injection hv with hv
      exact Or.inl hv.symm
  | boolv b =>
      simp only [cleanValue] at hv
      injection hv with hv
      exact Or.inl hv.symm

theorem cleanValue_str_cond {s : String} {v : JsonValue}
    (hv : cleanValue (JsonValue.str s) = some v) :
    ¬s = "" ∧ strContains s "REDACTED" = false := by
  simp only [cleanValue] at hv
  by_cases hc : (s != "" && !(strContains s "REDACTED")) = true
  · simp only [Bool.and_eq_true, bne_iff_ne, Bool.not_eq_true'] at hc
    exact ⟨hc.1, hc.2⟩
  · rw [if_neg hc] at hv
    exact Option.noConfusion hv

/-- C1: every key present in the output of `removeRedactedAndEmptyFields`
maps to a value that is non-null, and if that value is a string, it is
non-empty and does not contain the substring `"REDACTED"`. -/
theorem clean_output_values (m : JsonFields) (k : String) (v : JsonValue)
    (h : (k, v) ∈ (removeRedactedAndEmptyFields m).toList) :
    v ≠ JsonValue.null ∧
      ∀ s : String, v = JsonValue.str s → ¬s = "" ∧ strContains s "REDACTED" = false := by
  obtain ⟨v0, hmem, hv⟩ := (mem_clean_iff m k v).mp h
  rcases cleanValue_some_shape hv with hshape | ⟨w, hw0, hw⟩
  · cases v0 with
    | str s =>
        subst hshape
        refine ⟨fun hnull => JsonValue.noConfusion hnull, fun s' hs => ?_⟩
        injection hs with he
        subst he
        exact cleanValue_str_cond hv
    | num n =>
        subst hshape
        exact ⟨fun hnull => JsonValue.noConfusion hnull, fun s' hs => JsonValue.noConfusion hs⟩
    | boolv b =>
        subst hshape
        exact ⟨fun hnull => JsonValue.noConfusion hnull, fun s' hs => JsonValue.noConfusion hs⟩
    | null =>
        simp [cleanValue] at hv
    | arr xs =>
        subst hshape
        exact ⟨fun hnull => JsonValue.noConfusion hnull, fun s' hs => JsonValue.noConfusion hs⟩
    | obj w =>
        subst hshape
        exact ⟨fun hnull => JsonValue.noConfusion hnull, fun s' hs => JsonValue.noConfusion hs⟩
  · subst hw
    exact ⟨fun hnull => JsonValue.noConfusion hnull, fun s' hs => JsonValue.noConfusion hs⟩

theorem clean_output_values_witness :
    JsonValue.str "ok" ≠ JsonValue.null ∧
      ∀ s : String, JsonValue.str "ok" = JsonValue.str s →
        ¬s = "" ∧ strContains s "REDACTED" = false :=
  clean_output_values (JsonFields.cons "c" (JsonValue.str "ok") JsonFields.nil) "c"
    (JsonValue.str "ok") (by decide)

/-- C2: `removeRedactedAndEmptyFields` is idempotent: cleaning an already
cleaned record changes nothing. -/
theorem clean_idempotent : ∀ r : JsonFields,
    removeRedactedAndEmptyFields (removeRedactedAndEmptyFields r) = removeRedactedAndEmptyFields r
  | .nil => rfl
  | .cons k (JsonValue.str s) rest => by
      by_cases h : ¬s = "" ∧ strContains s "REDACTED" = false <;>
        simp [removeRedactedAndEmptyFields, h, clean_idempotent rest]
  | .cons k (JsonValue.obj v) rest => by
      by_cases h : 0 < (removeRedactedAndEmptyFields v).length
      · simp [removeRedactedAndEmptyFields, h, clean_idempotent v, clean_idempotent rest]
      · simp [removeRedactedAndEmptyFields, h, clean_idempotent rest]
  | .cons k (JsonValue.arr xs) rest => by
      by_cases h : 0 < xs.length <;>
        simp [removeRedactedAndEmptyFields, h, clean_idempotent rest]
  | .cons k JsonValue.null rest => by
      simp [removeRedactedAndEmptyFields, clean_idempotent rest]
  | .cons k (JsonValue.num n) rest => by
      simp [removeRedactedAndEmptyFields, clean_idempotent rest]
  | .cons k (JsonValue.boolv b) rest => by
      simp [removeRedactedAndEmptyFields, clean_idempotent rest]

/-- The mapping of the spec's clean scenario:
`{"a": "REDACTED FOR PRIVACY", "b": "", "c": "ok", "d": {"e": "REDACTED"},
"f": {"g": "ok"}, "h": [], "i": [1,2], "j": null, "k": 5}`. -/
def scenarioInput : JsonFields :=
  .cons "a" (JsonValue.str "REDACTED FOR PRIVACY")
    (.cons "b" (JsonValue.str "")
      (.cons "c" (JsonValue.str "ok")
        (.cons "d" (JsonValue.obj (.cons "e" (JsonValue.str "REDACTED") .nil))
          (.cons "f" (JsonValue.obj (.cons "g" (JsonValue.str "ok") .nil))
            (.cons "h" (JsonValue.arr .nil)
              (.cons "i" (JsonValue.arr
                  (.cons (JsonValue.num 1) (.cons (JsonValue.num 2) .nil)))
                (.cons "j" JsonValue.null
                  (.cons "k" (JsonValue.num 5) .nil))))))))

/-- C5: cleaning the scenario mapping yields exactly
`{"c": "ok", "f": {"g": "ok"}, "i": [1,2], "k": 5}`. -/
theorem clean_scenario :
    removeRedactedAndEmptyFields scenarioInput =
      .cons "c" (JsonValue.str "ok")
        (.cons "f" (JsonValue.obj (.cons "g" (JsonValue.str "ok") .nil))
          (.cons "i" (JsonValue.arr
              (.cons (JsonValue.num 1) (.cons (JsonValue.num 2) .nil)))
            (.cons "k" (JsonValue.num 5) .nil))) := by
  decide

theorem cleanValue_obj_eq (w : JsonFields) :
    cleanValue (JsonValue.obj w) =
      if (removeRedactedAndEmptyFields w).length > 0 then
        some (JsonValue.obj (removeRedactedAndEmptyFields w))
      else none := rfl

theorem cleanValue_arr_eq (xs : JsonList) :
    cleanValue (JsonValue.arr xs) =
      if xs.length > 0 then some (JsonValue.arr xs) else none := rfl

/-- C3: a key whose value is a nested mapping is kept by
`removeRedactedAndEmptyFields` iff the recursively cleaned nested mapping is
non-empty; when kept, its value is that cleaned nested mapping, and when the
cleaned nested mapping is empty the key is absent from the output. -/
theorem clean_nested_mapping (m : JsonFields) (k : String) (w : JsonFields)
    (hnd : (m.toList.map Prod.fst).Nodup)
    (hmem : (k, JsonValue.obj w) ∈ m.toList) :
    ((removeRedactedAndEmptyFields w).length > 0 →
        (k, JsonValue.obj (removeRedactedAndEmptyFields w))
          ∈ (removeRedactedAndEmptyFields m).toList) ∧
      (k ∈ (removeRedactedAndEmptyFields m).toList.map Prod.fst ↔
        (removeRedactedAndEmptyFields w).length > 0) := by
  constructor
  · intro hlen
    exact (mem_clean_iff m k _).mpr
      ⟨JsonValue.obj w, hmem, by rw [cleanValue_obj_eq, if_pos hlen]⟩
  · constructor
    · intro hk
      obtain ⟨⟨k0, v'⟩, hv'mem, hk0⟩ := List.mem_map.mp hk
      obtain ⟨v0, hv0mem, hv0⟩ := (mem_clean_iff m k0 v').mp hv'mem
      subst hk0
      have hveq : v0 = JsonValue.obj w := keys_nodup_val_eq hnd hv0mem hmem
      subst hveq
      rw [cleanValue_obj_eq] at hv0
      by_cases hlen : (removeRedactedAndEmptyFields w).length > 0
      · exact hlen
      · rw [if_neg hlen] at hv0
        exact Option.noConfusion hv0
    · intro hlen
      exact List.mem_map.mpr ⟨(k, JsonValue.obj (removeRedactedAndEmptyFields w)),
        (mem_clean_iff m k _).mpr
          ⟨JsonValue.obj w, hmem, by rw [cleanValue_obj_eq, if_pos hlen]⟩, rfl⟩

theorem clean_nested_mapping_witness :
    ((removeRedactedAndEmptyFields (JsonFields.cons "g" (JsonValue.str "ok") JsonFields.nil)).length > 0 →
        ("f", JsonValue.obj (removeRedactedAndEmptyFields
            (JsonFields.cons "g" (JsonValue.str "ok") JsonFields.nil)))
          ∈ (removeRedactedAndEmptyFields
              (JsonFields.cons "f"
                (JsonValue.obj (JsonFields.cons "g" (JsonValue.str "ok") JsonFields.nil))
                JsonFields.nil)).toList) ∧
      ("f" ∈ (removeRedactedAndEmptyFields
            (JsonFields.cons "f"
              (JsonValue.obj (JsonFields.cons "g" (JsonValue.str "ok") JsonFields.nil))
              JsonFields.nil)).toList.map Prod.fst ↔
        (removeRedactedAndEmptyFields (JsonFields.cons "g" (JsonValue.str "ok") JsonFields.nil)).length > 0) :=
  clean_nested_mapping
    (JsonFields.cons "f"
      (JsonValue.obj (JsonFields.cons "g" (JsonValue.str "ok") JsonFields.nil))
      JsonFields.nil)
    "f" (JsonFields.cons "g" (JsonValue.str "ok") JsonFields.nil)
    (by decide) (by decide)

/-- C4: a key whose value is a sequence is kept by
`removeRedactedAndEmptyFields` iff the sequence has at least one element,
and any surviving value for that key is the input sequence itself,
element-for-element untouched. -/
theorem clean_sequence (m : JsonFields) (k : String) (xs : JsonList)
    (hnd : (m.toList.map Prod.fst).Nodup)
    (hmem : (k, JsonValue.arr xs) ∈ m.toList) :
    (((k, JsonValue.arr xs) ∈ (removeRedactedAndEmptyFields m).toList) ↔ xs.length > 0) ∧
      ∀ v', (k, v') ∈ (removeRedactedAndEmptyFields m).toList → v' = JsonValue.arr xs := by
  have hval : ∀ v', (k, v') ∈ (removeRedactedAndEmptyFields m).toList → v' = JsonValue.arr xs := by
    intro v' hv'
    obtain ⟨v0, hv0mem, hv0⟩ := (mem_clean_iff m k v').mp hv'
    have hveq : v0 = JsonValue.arr xs := keys_nodup_val_eq hnd hv0mem hmem
    subst hveq
    rw [cleanValue_arr_eq] at hv0
    by_cases hlen : xs.length > 0
    · rw [if_pos hlen] at hv0
      injection hv0 with hv0
      exact hv0.symm
    · rw [if_neg hlen] at hv0
      exact Option.noConfusion hv0
  refine ⟨⟨fun hin => ?_, fun hlen => ?_⟩, hval⟩
  · obtain ⟨v0, hv0mem, hv0⟩ := (mem_clean_iff m k _).mp hin
    have hveq : v0 = JsonValue.arr xs := keys_nodup_val_eq hnd hv0mem hmem
    subst hveq
    rw [cleanValue_arr_eq] at hv0
    by_cases hlen : xs.length > 0
    · exact hlen
    · rw [if_neg hlen] at hv0
      exact Option.noConfusion hv0
  · exact (mem_clean_iff m k _).mpr
      ⟨JsonValue.arr xs, hmem, by rw [cleanValue_arr_eq, if_pos hlen]⟩

theorem clean_sequence_witness :
    ((("i", JsonValue.arr (JsonList.cons (JsonValue.num 1) (JsonList.cons (JsonValue.num 2) JsonList.nil)))
        ∈ (removeRedactedAndEmptyFields
            (JsonFields.cons "i"
              (JsonValue.arr (JsonList.cons (JsonValue.num 1) (JsonList.cons (JsonValue.num 2) JsonList.nil)))
              JsonFields.nil)).toList) ↔
      (JsonList.cons (JsonValue.num 1) (JsonList.cons (JsonValue.num 2) JsonList.nil)).length > 0) ∧
      ∀ v', ("i", v') ∈ (removeRedactedAndEmptyFields
            (JsonFields.cons "i"
              (JsonValue.arr (JsonList.cons (JsonValue.num 1) (JsonList.cons (JsonValue.num 2) JsonList.nil)))
              JsonFields.nil)).toList →
        v' = JsonValue.arr (JsonList.cons (JsonValue.num 1) (JsonList.cons (JsonValue.num 2) JsonList.nil)) :=
  clean_sequence
    (JsonFields.cons "i"
      (JsonValue.arr (JsonList.cons (JsonValue.num 1) (JsonList.cons (JsonValue.num 2) JsonList.nil)))
      JsonFields.nil)
    "i" (JsonList.cons (JsonValue.num 1) (JsonList.cons (JsonValue.num 2) JsonList.nil))
    (by decide) (by decide)

/-- C10: cleaning only ever removes fields and rewrites nested mappings:
the output key set is a subset of the input key set, every output pair whose
value is not a nested mapping is a pair of the input, and under unique keys
a surviving non-mapping input value reappears unchanged.  (The Go function
builds a fresh map and never writes to its argument; in this pure embedding
that frame condition is implicit.) -/
theorem clean_frame (m : JsonFields) :
    (∀ k, k ∈ (removeRedactedAndEmptyFields m).toList.map Prod.fst →
        k ∈ m.toList.map Prod.fst) ∧
      (∀ k v', (k, v') ∈ (removeRedactedAndEmptyFields m).toList →
        (∀ w, v' ≠ JsonValue.obj w) → (k, v') ∈ m.toList) ∧
      (∀ k v, (m.toList.map Prod.fst).Nodup → (k, v) ∈ m.toList →
        (∀ w, v ≠ JsonValue.obj w) →
        ∀ v', (k, v') ∈ (removeRedactedAndEmptyFields m).toList → v' = v) := by
  refine ⟨?_, ?_, ?_⟩
  · intro k hk
    obtain ⟨⟨k0, v'⟩, hv'mem, hk0⟩ := List.mem_map.mp hk
    subst hk0
    obtain ⟨v0, hv0mem, _⟩ := (mem_clean_iff m k0 v').mp hv'mem
    exact List.mem_map.mpr ⟨(k0, v0), hv0mem, rfl⟩
  · intro k v' hv' hnotobj
    obtain ⟨v0, hv0mem, hv0⟩ := (mem_clean_iff m k v').mp hv'
    rcases cleanValue_some_shape hv0 with hshape | ⟨w, _, hw⟩
    · rw [hshape]
      exact hv0mem
    · exact absurd hw (hnotobj _)
  · intro k v hnd hmem hnotobj v' hv'
    obtain ⟨v0, hv0mem, hv0⟩ := (mem_clean_iff m k v').mp hv'
    have hveq : v0 = v := keys_nodup_val_eq hnd hv0mem hmem
    subst hveq
    rcases cleanValue_some_shape hv0 with hshape | ⟨w, hw0, _⟩
    · exact hshape
    · exact absurd hw0 (hnotobj _)

theorem clean_frame_witness :
    ("k", JsonValue.num 5) ∈ (JsonFields.cons "k" (JsonValue.num 5) JsonFields.nil).toList :=
  (clean_frame (JsonFields.cons "k" (JsonValue.num 5) JsonFields.nil)).2.1 "k" (JsonValue.num 5)
    (by decide) (fun w h => JsonValue.noConfusion h)

theorem tryKeys_all_fail (lookup : String → Option JsonFields) :
    ∀ keys : List String, (∀ k ∈ keys, lookup (trimSpace k) = none) →
      tryKeys lookup keys = (keys.map trimSpace, none)
  | [], _ => rfl
  | k :: rest, h => by
      have hk : lookup (trimSpace k) = none := h k (List.mem_cons_self k rest)
      have hrest := tryKeys_all_fail lookup rest (fun k' hk' => h k' (List.mem_cons_of_mem k hk'))
      simp [tryKeys, hk, hrest]

theorem tryKeys_first_success (lookup : String → Option JsonFields) (r : JsonFields) :
    ∀ (pre : List String) (g : String) (post : List String),
      (∀ k ∈ pre, lookup (trimSpace k) = none) → lookup (trimSpace g) = some r →
      tryKeys lookup (pre ++ g :: post) = (pre.map trimSpace ++ [trimSpace g], some r)
  | [], g, post, _, hg => by simp [tryKeys, hg]
  | k :: pre, g, post, hpre, hg => by
      have hk : lookup (trimSpace k) = none := hpre k (List.mem_cons_self k pre)
      have hrest := tryKeys_first_success lookup r pre g post
        (fun k' hk' => hpre k' (List.mem_cons_of_mem k hk')) hg
      simp [tryKeys, hk, hrest]

theorem tryKeys_tried_initial (lookup : String → Option JsonFields) :
    ∀ keys : List String, (tryKeys lookup keys).1 <+: keys.map trimSpace
  | [] => ⟨[], rfl⟩
  | k :: rest => by
      cases h : lookup (trimSpace k) with
      | some r =>
          exact ⟨rest.map trimSpace, by simp [tryKeys, h]⟩
      | none =>
          obtain ⟨t, ht⟩ := tryKeys_tried_initial lookup rest
          exact ⟨t, by simp [tryKeys, h, ← ht]⟩

/-- C6: the driver tries keys in list order; the first key whose lookup
succeeds ends the loop: the invoked keys are exactly the failing prefix
followed by the first successful key, each once, no key after the success is
ever invoked, and the printed output is built from the first successful
response alone (cleaned iff the `-clean` flag is set), with exit code 0 and
no failure message. -/
theorem driver_first_success (lookup : String → Option JsonFields)
    (hideRedacted : Bool) (pre : List String) (g : String) (post : List String)
    (r : JsonFields)
    (hpre : ∀ k ∈ pre, lookup (trimSpace k) = none)
    (hg : lookup (trimSpace g) = some r) :
    runMain lookup hideRedacted (pre ++ g :: post) =
      { triedKeys := pre.map trimSpace ++ [trimSpace g]
        printed := some (if hideRedacted then removeRedactedAndEmptyFields r else r)
        message := none
        exitCode := 0 } := by
  rw [runMain, tryKeys_first_success lookup r pre g post hpre hg]

theorem driver_first_success_witness :
    runMain (fun k => if k = "good" then some (JsonFields.cons "c" (JsonValue.str "ok") JsonFields.nil) else none)
        false (["bad1", "bad2"] ++ "good" :: ["unused"]) =
      { triedKeys := ["bad1", "bad2"].map trimSpace ++ [trimSpace "good"]
        printed := some (if false then
            removeRedactedAndEmptyFields (JsonFields.cons "c" (JsonValue.str "ok") JsonFields.nil)
          else JsonFields.cons "c" (JsonValue.str "ok") JsonFields.nil)
        message := none
        exitCode := 0 } :=
  driver_first_success
    (fun k => if k = "good" then some (JsonFields.cons "c" (JsonValue.str "ok") JsonFields.nil) else none)
    false ["bad1", "bad2"] "good" ["unused"]
    (JsonFields.cons "c" (JsonValue.str "ok") JsonFields.nil)
    (by decide) (by decide)

/-- C8: when the lookup of every key fails, the run prints no record, emits
the generic `All API keys failed.` message and exits 1; when the key list
contains a key whose lookup succeeds after a failing prefix, the run exits
0. -/
theorem driver_exhaustion_and_success (lookup : String → Option JsonFields)
    (hideRedacted : Bool) (keys : List String) :
    ((∀ k ∈ keys, lookup (trimSpace k) = none) →
        runMain lookup hideRedacted keys =
          { triedKeys := keys.map trimSpace
            printed := none
            message := some "All API keys failed."
            exitCode := 1 }) ∧
      (∀ (pre : List String) (g : String) (post : List String) (r : JsonFields),
        keys = pre ++ g :: post →
        (∀ k ∈ pre, lookup (trimSpace k) = none) → lookup (trimSpace g) = some r →
        (runMain lookup hideRedacted keys).exitCode = 0) := by
  constructor
  · intro hall
    rw [runMain, tryKeys_all_fail lookup keys hall]
  · intro pre g post r hkeys hpre hg
    subst hkeys
    rw [runMain, tryKeys_first_success lookup r pre g post hpre hg]

theorem driver_exhaustion_and_success_witness :
    (runMain (fun _ => none) false ["x"] =
        { triedKeys := ["x"].map trimSpace
          printed := none
          message := some "All API keys failed."
          exitCode := 1 }) ∧
      (runMain (fun k => if k = "g" then some JsonFields.nil else none) false ["b", "g"]).exitCode = 0 :=
  ⟨(driver_exhaustion_and_success (fun _ => none) false ["x"]).1 (by decide),
    (driver_exhaustion_and_success (fun k => if k = "g" then some JsonFields.nil else none)
        false ["b", "g"]).2 ["b"] "g" [] JsonFields.nil rfl (by decide) (by decide)⟩

/-- C9 counterexample: splitting `"a,,b"` on commas yields the token `""`;
trimming leaves it empty, it is not filtered out, and the driver invokes the
lookup on it like any other key.  So the derived key list does not consist
of non-empty tokens. -/
theorem keylist_empty_token_used :
    "" ∈ (splitComma "a,,b").map trimSpace ∧
      (runMain (fun _ => none) false (splitComma "a,,b")).triedKeys = ["a", "", "b"] := by
  decide

/-- C9 amended: the key list is obtained by splitting the keys flag on
commas; each token is trimmed of surrounding whitespace before use (tokens
may be empty — empty tokens are not filtered out and are tried like any
other key), and the driver iterates the list at most once in its original
order: the keys it invokes are an initial segment of the trimmed token
list. -/
theorem keylist_trimmed_in_order (s : String) (lookup : String → Option JsonFields)
    (hideRedacted : Bool) :
    (runMain lookup hideRedacted (splitComma s)).triedKeys <+: (splitComma s).map trimSpace := by
  have h := tryKeys_tried_initial lookup (splitComma s)
  rw [runMain]
  cases htk : tryKeys lookup (splitComma s) with
  | mk tried res =>
      cases res with
      | none => simpa [htk] using h
      | some r => simpa [htk] using h

theorem fetch_transport_eq (parse : String → Option JsonFields) :
    fetchIP2Whois parse HttpOutcome.transportFailure =
      Except.error LookupError.transportErr := rfl

theorem fetch_bad_status_eq (parse : String → Option JsonFields) (status : Nat)
    (body : String) (hs : ¬status = 200) :
    fetchIP2Whois parse (HttpOutcome.response status body) =
      Except.error (LookupError.statusErr status) := by
  simp [fetchIP2Whois, hs]

theorem fetch_parse_fail_eq (parse : String → Option JsonFields) (body : String)
    (hp : parse body = none) :
    fetchIP2Whois parse (HttpOutcome.response 200 body) =
      Except.error LookupError.parseErr := by
  simp [fetchIP2Whois, hp]

theorem fetch_parsed_eq (parse : String → Option JsonFields) (body : String)
    (m0 : JsonFields) (hp : parse body = some m0) :
    fetchIP2Whois parse (HttpOutcome.response 200 body) =
      if hasErrorKey m0 = true then Except.error LookupError.apiErr
      else Except.ok m0 := by
  simp [fetchIP2Whois, hp]

/-- C7: `fetchIP2Whois` returns the parsed record iff the transport call
completed with status 200, the body parsed, and the parsed body has no
top-level `error` field; a well-formed 200 body that does contain an
`error` field is reported as `apiErr`, a failure kind distinct from the
transport, status, and parse failures. -/
theorem fetch_success_characterisation (parse : String → Option JsonFields)
    (outcome : HttpOutcome) :
    (∀ m : JsonFields, fetchIP2Whois parse outcome = Except.ok m ↔
        ∃ body, outcome = HttpOutcome.response 200 body ∧
          parse body = some m ∧ hasErrorKey m = false) ∧
      (∀ (body : String) (m : JsonFields), outcome = HttpOutcome.response 200 body →
        parse body = some m → hasErrorKey m = true →
        fetchIP2Whois parse outcome = Except.error LookupError.apiErr) ∧
      (LookupError.apiErr ≠ LookupError.transportErr ∧
        (∀ c, LookupError.apiErr ≠ LookupError.statusErr c) ∧
        LookupError.apiErr ≠ LookupError.parseErr) := by
  refine ⟨?_, ?_, fun h => LookupError.noConfusion h, fun c h => LookupError.noConfusion h,
    fun h => LookupError.noConfusion h⟩
  · intro m
    constructor
    · intro h
      cases outcome with
      | transportFailure =>
          rw [fetch_transport_eq] at h
          exact Except.noConfusion h
      | response status body =>
          by_cases hs : status = 200
          · subst hs
            cases hp : parse body with
            | none =>
                rw [fetch_parse_fail_eq parse body hp] at h
                exact Except.noConfusion h
            | some m0 =>
                rw [fetch_parsed_eq parse body m0 hp] at h
                by_cases he : hasErrorKey m0 = true
                · rw [if_pos he] at h
                  exact Except.noConfusion h
                · rw [if_neg he] at h
                  injection h with hm
                  subst hm
                  exact ⟨body, rfl, hp, by simpa using he⟩
          · rw [fetch_bad_status_eq parse status body hs] at h
            exact Except.noConfusion h
    · rintro ⟨body, hbody, hparse, herr⟩
      subst hbody
      simp [fetch_parsed_eq parse body m hparse, herr]
  · intro body m hout hparse herr
    subst hout
    simp [fetch_parsed_eq parse body m hparse, herr]

theorem fetch_success_characterisation_witness :
    fetchIP2Whois
        (fun b => if b = "errbody"
          then some (JsonFields.cons "error" (JsonValue.str "denied") JsonFields.nil)
          else none)
        (HttpOutcome.response 200 "errbody") = Except.error LookupError.apiErr :=
  (fetch_success_characterisation
      (fun b => if b = "errbody"
        then some (JsonFields.cons "error" (JsonValue.str "denied") JsonFields.nil)
        else none)
      (HttpOutcome.response 200 "errbody")).2.1 "errbody"
    (JsonFields.cons "error" (JsonValue.str "denied") JsonFields.nil)
    rfl (by decide) (by decide)
